import Mathlib

/- Verification of the command-processing engine of dragon_mvp.py
   (class DictationApp).  The tkinter text widget is modelled as a plain
   string buffer: get returns the buffer, delete plus insert replaces it,
   insert at the END index appends.  Inputs are assumed ASCII for the
   character classes of the Python regexes.  The two history deques
   (maxlen 50) are represented newest-first, so deque append is cons plus
   keeping the newest 50 entries, and popping from the right is taking the
   head. -/

/-- Whitespace set of Python str.strip and the regex class backslash-s (ASCII). -/
def isPySpace (c : Char) : Bool :=
  c = ' ' || c = '\t' || c = '\n' || c = '\r' || c = '\x0b' || c = '\x0c'

/-- Word character of the Python regex class backslash-w (ASCII fragment). -/
def isWordChar (c : Char) : Bool := c.isAlphanum || c = '_'

def lbrace : Char := Char.ofNat 123

def rbrace : Char := Char.ofNat 125

def squote : Char := Char.ofNat 39

/-- Python str.strip (both ends, whitespace). -/
def pyStrip (s : String) : String :=
  (((s.toList.dropWhile isPySpace).reverse.dropWhile isPySpace).reverse).asString

/-- Python str.lower (ASCII). -/
def pyLowerS (s : String) : String := (s.toList.map Char.toLower).asString

def containsL (pat : List Char) : List Char → Bool
  | [] => pat.isEmpty
  | c :: cs => pat.isPrefixOf (c :: cs) || containsL pat cs

/-- Python substring test, pat in s. -/
def containsS (s pat : String) : Bool := containsL pat.toList s.toList

def replaceAllGo (pat repl : List Char) : Nat → List Char → List Char
  | _, [] => []
  | 0, s => s
  | fuel+1, c :: cs =>
    if !pat.isEmpty && pat.isPrefixOf (c :: cs) then
      repl ++ replaceAllGo pat repl fuel (List.drop (pat.length - 1) cs)
    else c :: replaceAllGo pat repl fuel cs

/-- Python str.replace with a non-empty pattern: replaces all occurrences,
left to right, non-overlapping.  The fuel is the string length; every step
consumes at least one character, so the fuel never runs out. -/
def pyReplace (s pat repl : String) : String :=
  (replaceAllGo pat.toList repl.toList s.toList.length s.toList).asString

def replaceFirstGo (pat repl : List Char) : Nat → List Char → List Char
  | _, [] => []
  | 0, s => s
  | fuel+1, c :: cs =>
    if !pat.isEmpty && pat.isPrefixOf (c :: cs) then
      repl ++ List.drop (pat.length - 1) cs
    else c :: replaceFirstGo pat repl fuel cs

/-- Python str.replace with count 1 (first occurrence only). -/
def replaceFirstS (s pat repl : String) : String :=
  (replaceFirstGo pat.toList repl.toList s.toList.length s.toList).asString

def startsWithS (s pre : String) : Bool := pre.toList.isPrefixOf s.toList

def dropS (s : String) (n : Nat) : String := (s.toList.drop n).asString

/-- Scanner of re.findall for a brace, one or more word characters, then a
closing brace, capturing the word run; used by show_empty_fields (line 207). -/
def findPhGo : Nat → List Char → List (List Char)
  | _, [] => []
  | 0, _ => []
  | fuel+1, c :: cs =>
    if c = lbrace then
      let w := cs.takeWhile isWordChar
      match cs.dropWhile isWordChar with
      | r :: rs =>
        if !w.isEmpty && (r == rbrace) then w :: findPhGo fuel rs
        else findPhGo fuel cs
      | [] => findPhGo fuel cs
    else findPhGo fuel cs

def findPlaceholders (s : String) : List String :=
  (findPhGo s.toList.length s.toList).map List.asString

/-- Document and surface state of DictationApp.  status and info model the
two labels written by update_status and update_info. -/
structure AppState where
  text : String
  activeMacroKey : Option String
  fieldConfidence : List (String × Rat)
  history : List String
  redoStack : List String
  status : Option (String × String)
  info : Option String
deriving DecidableEq

/-- Initial state of the application (empty widget, no macro, empty deques). -/
def initState : AppState :=
  { text := "", activeMacroKey := none, fieldConfidence := [],
    history := [], redoStack := [], status := none, info := none }

/-- deque.append with maxlen 50, newest-first: the new entry plus the newest
49 previous ones (the oldest entries are silently evicted). -/
def histPush (h : List String) (x : String) : List String := x :: h.take 49

/-- DictationApp.save_to_history, lines 163-168: push the current text
unless it equals the newest entry; the push clears the redo stack. -/
def save_to_history (s : AppState) : AppState :=
  if s.history.head? = some s.text then s
  else { s with history := histPush s.history s.text, redoStack := [] }

/-- DictationApp.undo, lines 170-178: only when more than one entry exists,
pop the newest entry onto the redo stack and display the next entry. -/
def undo (s : AppState) : AppState :=
  match s.history with
  | current :: previous :: rest =>
    { s with history := previous :: rest,
             redoStack := histPush s.redoStack current,
             text := previous,
             status := some ("Undo", "blue") }
  | _ => s

/-- DictationApp.redo, lines 180-187: pop from the redo stack, append onto
history (plain deque append, no dedup), and display it. -/
def redo (s : AppState) : AppState :=
  match s.redoStack with
  | nextState :: rest =>
    { s with redoStack := rest,
             history := histPush s.history nextState,
             text := nextState,
             status := some ("Redo", "blue") }
  | [] => s

/-- DictationApp.clear_all, lines 189-196, on the confirmed path of the
dialog. -/
def clear_all (s : AppState) : AppState :=
  let s1 := save_to_history s
  { s1 with text := "", activeMacroKey := none, fieldConfidence := [],
            status := some ("Cleared", "black") }

def aq : String := squote.toString

def insertedMsg (k : String) : String := "Inserted macro: " ++ aq ++ k ++ aq

def notFoundMsg (k : String) : String := "Macro " ++ aq ++ k ++ aq ++ " not found"

def filledMsg (f : String) : String := "Filled field " ++ aq ++ f ++ aq

def dateToken : String := "\x7bdate\x7d"

def fieldToken (k : String) : String := "\x7b" ++ k ++ "\x7d"

/-- Placeholder built by the set branch, line 381: braces around the stripped
field with spaces replaced by underscores. -/
def mkPlaceholder (f : String) : String := fieldToken (pyReplace (pyStrip f) " " "_")

/-- Line 342: lowercase, strip, then remove every period and comma. -/
def normalize_utterance (t : String) : String :=
  pyReplace (pyReplace (pyStrip (pyLowerS t)) "." "") "," ""

def isFieldChar (c : Char) : Bool := isWordChar c || isPySpace c

/-- Remainders after a greedy whitespace-plus, longest consumed first. -/
def wsAlts (cs : List Char) : List (List Char) :=
  let m := (cs.takeWhile isPySpace).length
  (List.range m).map (fun i => cs.drop (m - i))

/-- Captures of the lazy field group (word or space characters), shortest
first, with the remainder. -/
def fieldAlts (cs : List Char) : List (List Char × List Char) :=
  let k := (cs.takeWhile isFieldChar).length
  (List.range k).map (fun i => (cs.take (i+1), cs.drop (i+1)))

/-- Case-insensitive literal at the front; lit must be lowercase. -/
def ciLit (lit cs : List Char) : Option (List Char) :=
  if (cs.take lit.length).map Char.toLower = lit then some (cs.drop lit.length) else none

def sepAlts (cs : List Char) : List (List Char) :=
  ["to".toList, "is".toList, "as".toList].filterMap (fun l => ciLit l cs)

def set_fill_core (cs : List Char) : Option (List Char × List Char) :=
  (wsAlts cs).findSome? fun r1 =>
    (fieldAlts r1).findSome? fun fr =>
      (wsAlts fr.2).findSome? fun r3 =>
        (sepAlts r3).findSome? fun r4 =>
          (wsAlts r4).findSome? fun r5 =>
            let v := r5.takeWhile (fun c => c != '\n')
            if v.isEmpty then none else some (fr.1, v)

/-- Backtracking match of the anchored IGNORECASE pattern of lines 373-377:
set or fill, whitespace, a lazy group of word or space characters, whitespace,
to or is or as, whitespace, then a greedy dot-plus group (no newline).
Returns the two captured groups; the alternative orders reproduce the Python
engine (greedy pieces longest first, lazy pieces shortest first, later
pieces backtracking before earlier ones). -/
def set_fill_match (text : String) : Option (String × String) :=
  let cs := text.toList
  let afterKw :=
    match ciLit "set".toList cs with
    | some r => some r
    | none => ciLit "fill".toList cs
  afterKw.bind fun r =>
    (set_fill_core r).map fun fv => (fv.1.asString, fv.2.asString)

/-- Branch classification of DictationApp.process_command, lines 336-393.
The code has no ScratchLast, ClearBuffer, ClearAll, PasteBuffer, UndoPaste,
ShowFields, Undo or Redo branch; everything unmatched is appended. -/
inductive Cmd where
  | errorPassthrough (msg : String)
  | processNote
  | insertMacroCmd (key : String)
  | setField (field value : String)
  | appendText (t : String)
deriving DecidableEq

inductive Spawn where
  | processNote
deriving DecidableEq

/-- The branch tests of process_command in source order: the ERROR sentinel,
the literal process note, the insert prefix (key from line 355), the set or
fill pattern (raw groups), else append. -/
def parse_command (text : String) : Cmd :=
  if startsWithS text "ERROR:" then .errorPassthrough text
  else
    let tl := normalize_utterance text
    if tl = "process note" then .processNote
    else if startsWithS tl "insert " then
      .insertMacroCmd (pyReplace (pyStrip (dropS tl 7)) " " "_")
    else
      match set_fill_match text with
      | some fv => .setField fv.1 fv.2
      | none => .appendText text

/-- The effects of each branch of process_command, lines 336-393.  Every
mutating branch snapshots history first (lines 354, 379, 391); the insert
and set branches take their snapshot before any validation. -/
def apply_cmd (ms : List (String × String)) (today : String) (s : AppState) :
    Cmd → AppState × Option Spawn
  | .errorPassthrough msg => ({ s with status := some (msg, "red") }, none)
  | .processNote => (s, some .processNote)
  | .insertMacroCmd key =>
    let s1 := save_to_history s
    match ms.lookup key with
    | some tpl =>
      ({ s1 with activeMacroKey := some key, fieldConfidence := [],
                 text := if containsS tpl dateToken then pyReplace tpl dateToken today
                         else tpl,
                 status := some (insertedMsg key, "green") }, none)
    | none => ({ s1 with status := some (notFoundMsg key, "red") }, none)
  | .setField field value =>
    let s1 := save_to_history s
    if containsS s1.text (mkPlaceholder field) then
      ({ s1 with text := replaceFirstS s1.text (mkPlaceholder field) (pyStrip value),
                 status := some (filledMsg field, "green") }, none)
    else (s1, none)
  | .appendText t =>
    let s1 := save_to_history s
    ({ s1 with text := s1.text ++ " " ++ t,
               status := some ("Text appended", "black") }, none)

/-- DictationApp.process_command: classify, then apply.  The second component
signals the worker thread spawned by the process-note branch (the thread body
runs asynchronously and reports through the queue). -/
def process_command (ms : List (String × String)) (today : String)
    (s : AppState) (text : String) : AppState × Option Spawn :=
  apply_cmd ms today s (parse_command text)

/-- Decoded reply field of the note-processing service: a bare JSON string,
or a value-and-confidence object with optional members (lines 416-421). -/
inductive FieldData where
  | plain (v : String)
  | scored (v : Option String) (c : Option Rat)
deriving DecidableEq

/-- The value extracted on lines 417 and 420 (dict get with default empty). -/
def FieldData.value : FieldData → String
  | .plain v => v
  | .scored v _ => v.getD ""

/-- The confidence extracted on lines 418 and 421. -/
def FieldData.confidence : FieldData → Rat
  | .plain _ => 1
  | .scored _ c => c.getD 0

structure NoteResult where
  fields : List (String × FieldData)
  procTime : Rat
  lowConfCount : Nat
deriving DecidableEq

/-- Python dict assignment on an insertion-ordered association list. -/
def dictSet (m : List (String × Rat)) (k : String) (v : Rat) : List (String × Rat) :=
  if (m.lookup k).isSome then m.map (fun p => if p.1 = k then (k, v) else p)
  else m ++ [(k, v)]

/-- One iteration of the loop on lines 415-425: a truthy value replaces its
placeholder everywhere and records its confidence; a falsy value is skipped. -/
def mergeStep (acc : String × List (String × Rat)) (kv : String × FieldData) :
    String × List (String × Rat) :=
  if kv.2.value ≠ "" then
    (pyReplace acc.1 (fieldToken kv.1) kv.2.value, dictSet acc.2 kv.1 kv.2.confidence)
  else acc

/-- Lines 405-425: a fresh copy of the stored template with the date token
substituted, then one replace and one confidence record per truthy field. -/
def merge_fields (tpl today : String) (fields : List (String × FieldData)) :
    String × List (String × Rat) :=
  fields.foldl mergeStep
    (if containsS tpl dateToken then pyReplace tpl dateToken today else tpl, [])

/-- Rendering of a numeric time; the two-decimal float formatting of the
status strings is abstracted to an exact rational rendering. -/
def fmtTime (q : Rat) : String := toString q.num ++ "/" ++ toString q.den

def geminiStatus (pt : Rat) (lc : Nat) : String :=
  "Gemini complete in " ++ fmtTime pt ++ "s" ++
    (if 0 < lc then " (" ++ toString lc ++ " low-confidence fields)" else "")

/-- DictationApp apply of a Gemini result, lines 395-439.  The falsy guard on
active_macro_key covers the None and empty-string cases; the merge starts
from the stored template, never from the live widget text. -/
def apply_gemini_result (ms : List (String × String)) (today : String)
    (s : AppState) (data : NoteResult) : AppState :=
  match s.activeMacroKey with
  | none => s
  | some k =>
    if k = "" then s
    else
      match ms.lookup k with
      | none => s
      | some tpl =>
        { s with text := (merge_fields tpl today data.fields).1,
                 fieldConfidence := (merge_fields tpl today data.fields).2,
                 status := some (geminiStatus data.procTime data.lowConfCount, "purple"),
                 info := some "Review yellow-highlighted fields" }

/-- One entry of the transcription queue, lines 268-277 and 304-312. -/
inductive QItem where
  | transcription (text : String) (procTime : Rat)
  | geminiResult (data : NoteResult)
  | error (text : String)
deriving DecidableEq

def transcribedMsg (pt : Rat) : String := "Transcribed in " ++ fmtTime pt ++ "s"

/-- One tick of DictationApp.process_queue, lines 314-334: get_nowait drains
at most one item; the queue-empty exception is caught and is the empty-list
case; an error item only writes the status label. -/
def process_queue (ms : List (String × String)) (today : String)
    (q : List QItem) (s : AppState) : List QItem × AppState :=
  match q with
  | [] => ([], s)
  | item :: rest =>
    match item with
    | .transcription t pt =>
      (rest, { (process_command ms today s t).1 with info := some (transcribedMsg pt) })
    | .geminiResult d => (rest, apply_gemini_result ms today s d)
    | .error msg => (rest, { s with status := some (msg, "red") })

/- Concrete fixtures used by the closed theorems below. -/

def tMacros : List (String × String) := [("m", "Exam: \x7bdate\x7d, Patient: \x7bname\x7d")]

/-- A state whose buffer holds plain text and whose deques are empty. -/
def s5 : AppState := { initState with text := "hello" }

/-- A state whose newest history entry equals the current text. -/
def w7 : AppState := { initState with text := "x", history := ["x"] }

/-- A state with the macro m active and a manually edited buffer. -/
def c1sA : AppState :=
  { initState with activeMacroKey := some "m",
                   text := "Exam: June 1, Patient: Bob",
                   fieldConfidence := [("name", 1)] }

/-- A second state with the same active macro but different live text. -/
def c1sB : AppState :=
  { initState with activeMacroKey := some "m", text := "a manual edit" }

def c1data : NoteResult :=
  { fields := [("name", FieldData.scored (some "Jane") (some (9/10)))],
    procTime := 0, lowConfCount := 0 }

def c2s1 : AppState := (process_command [] "D" initState "alpha").1

def c2s2 : AppState := (process_command [] "D" c2s1 "beta").1

def c6M : List (String × String) := [("m2", "Hello \x7bname\x7d")]

def c6s1 : AppState := (process_command c6M "D" initState "insert m2").1

def c6data : NoteResult :=
  { fields := [("bogus", FieldData.plain "x")], procTime := 0, lowConfCount := 0 }

def c9q : List QItem := [QItem.error "ERROR: boom"]

def c10s : AppState := { initState with activeMacroKey := some "m" }

def c10fields1 : List (String × FieldData) :=
  [("name", FieldData.plain "Jane"), ("extra", FieldData.scored none none)]

def c10fields2 : List (String × FieldData) := [("name", FieldData.plain "Jane")]

/- Helper lemmas. -/

theorem save_text (s : AppState) : (save_to_history s).text = s.text := by
  unfold save_to_history; split <;> rfl

theorem save_active (s : AppState) :
    (save_to_history s).activeMacroKey = s.activeMacroKey := by
  unfold save_to_history; split <;> rfl

theorem save_conf (s : AppState) :
    (save_to_history s).fieldConfidence = s.fieldConfidence := by
  unfold save_to_history; split <;> rfl

theorem save_status (s : AppState) : (save_to_history s).status = s.status := by
  unfold save_to_history; split <;> rfl

theorem save_history_cases (s : AppState) :
    (save_to_history s).history = s.history ∨
      (¬(s.history.head? = some s.text) ∧
        (save_to_history s).history = histPush s.history s.text) := by
  by_cases h : s.history.head? = some s.text
  · left; simp [save_to_history, h]
  · right; exact ⟨h, by simp [save_to_history, h]⟩

/-- C2: code-bug witness.  After the two consecutive append mutations alpha
and beta (from the empty initial state) the buffer holds " alpha beta", yet a
single undo displays the initial empty text instead of the pre-second-
mutation text " alpha", because history snapshots are taken before each
mutation while undo assumes the newest entry is the current text. -/
theorem C2_undo_restores_wrong_state :
    c2s2.text = " alpha beta" ∧ c2s1.text = " alpha" ∧
    (undo c2s2).text = "" ∧ (undo c2s2).text ≠ c2s1.text := by decide

/-- C3: code-bug witness.  Continuing the C2 trace: redo after the undo
displays " alpha", not the " alpha beta" that the undo removed from the
buffer; and an append mutation issued right after the undo does not clear the
redo stack (the pre-mutation snapshot equals the newest history entry, so the
dedup branch of save_to_history skips both the push and the clear). -/
theorem C3_redo_restores_wrong_state_and_redo_not_cleared :
    (redo (undo c2s2)).text = " alpha" ∧ c2s2.text = " alpha beta" ∧
    (redo (undo c2s2)).text ≠ c2s2.text ∧
    (process_command [] "D" (undo c2s2) "gamma").1.redoStack = [" alpha"] := by decide

/-- C4: counterexample.  The utterances undo and scratch that are routed to
the default AppendText branch (there is no Undo or ScratchLast branch in
process_command): on a buffer holding hello, saying undo appends the word. -/
theorem C4_counterexample :
    parse_command "undo" = Cmd.appendText "undo" ∧
    parse_command "scratch that" = Cmd.appendText "scratch that" ∧
    (process_command [] "D" s5 "undo").1.text = "hello undo" := by decide

/-- C5: counterexample.  A SetField whose placeholder is absent does change
the state: the snapshot taken before the placeholder check pushes the
pre-command text onto the previously empty undo history. -/
theorem C5_counterexample :
    parse_command "set name to Bob" = Cmd.setField "name" "Bob" ∧
    (process_command [] "D" s5 "set name to Bob").1.text = s5.text ∧
    (process_command [] "D" s5 "set name to Bob").1.history = ["hello"] ∧
    (process_command [] "D" s5 "set name to Bob").1.history ≠ s5.history := by decide

/-- C6: counterexample.  From the reachable state obtained by inserting the
known macro m2 (template Hello followed by the name placeholder), a reply
whose only field is the key bogus records a confidence entry for bogus even
though bogus never occurs as a placeholder of the template. -/
theorem C6_counterexample :
    (apply_gemini_result c6M "D" c6s1 c6data).fieldConfidence = [("bogus", 1)] ∧
    findPlaceholders "Hello \x7bname\x7d" = ["name"] ∧
    "bogus" ∉ findPlaceholders "Hello \x7bname\x7d" := by decide

/-- C8: counterexample.  On the empty initial buffer the default append
branch still prefixes the separating space: the result is " hello", although
the claim requires no separating space when the buffer is empty. -/
theorem C8_counterexample :
    (process_command [] "D" initState "hello").1.text = " hello" ∧
    (" hello" : String) ≠ "hello" := by decide

/-- C1: confirmed.  With an active macro id that is a non-empty key of the
store, the text and confidence map produced by a note-processing reply are
exactly the merge computed from the stored template (date substituted, one
replace and one confidence record per truthy field), and the resulting text
is independent of the pre-merge live text: any second state with the same
active macro id yields the same text, so a manual edit made before the reply
arrives is overwritten whenever the reply carries a value for that field. -/
theorem C1_merge_from_canonical_template
    (ms : List (String × String)) (today : String) (s sB : AppState)
    (data : NoteResult) (k tpl : String)
    (hk : s.activeMacroKey = some k) (hkB : sB.activeMacroKey = some k)
    (hne : k ≠ "") (ht : ms.lookup k = some tpl) :
    (apply_gemini_result ms today s data).text = (merge_fields tpl today data.fields).1 ∧
    (apply_gemini_result ms today s data).fieldConfidence =
      (merge_fields tpl today data.fields).2 ∧
    (apply_gemini_result ms today sB data).text =
      (apply_gemini_result ms today s data).text := by
  simp [apply_gemini_result, hk, hkB, hne, ht]

theorem C1_witness :
    (apply_gemini_result tMacros "October 12, 2026" c1sA c1data).text =
      (merge_fields "Exam: \x7bdate\x7d, Patient: \x7bname\x7d" "October 12, 2026"
        c1data.fields).1 ∧
    (apply_gemini_result tMacros "October 12, 2026" c1sA c1data).fieldConfidence =
      (merge_fields "Exam: \x7bdate\x7d, Patient: \x7bname\x7d" "October 12, 2026"
        c1data.fields).2 ∧
    (apply_gemini_result tMacros "October 12, 2026" c1sB c1data).text =
      (apply_gemini_result tMacros "October 12, 2026" c1sA c1data).text :=
  C1_merge_from_canonical_template tMacros "October 12, 2026" c1sA c1sB c1data "m"
    "Exam: \x7bdate\x7d, Patient: \x7bname\x7d" rfl rfl (by decide) (by decide)

/-- C4: amended.  Of the nine spec literals only process note is recognized:
any utterance that after lowercasing, stripping and removing all periods and
commas equals process note dispatches the ProcessNote branch (spawning the
note request with the state unchanged at dispatch); the eight other literals
fall through to the default AppendText branch, which the code routes them
to because it implements no such commands. -/
theorem C4_amended_only_process_note
    (ms : List (String × String)) (today : String) (s : AppState) (u : String)
    (h0 : startsWithS u "ERROR:" = false)
    (h1 : normalize_utterance u = "process note") :
    parse_command u = Cmd.processNote ∧
    process_command ms today s u = (s, some Spawn.processNote) ∧
    parse_command "scratch that" = Cmd.appendText "scratch that" ∧
    parse_command "clear buffer" = Cmd.appendText "clear buffer" ∧
    parse_command "clear all" = Cmd.appendText "clear all" ∧
    parse_command "paste buffer" = Cmd.appendText "paste buffer" ∧
    parse_command "undo paste" = Cmd.appendText "undo paste" ∧
    parse_command "show fields" = Cmd.appendText "show fields" ∧
    parse_command "undo" = Cmd.appendText "undo" ∧
    parse_command "redo" = Cmd.appendText "redo" := by
  have hp : parse_command u = Cmd.processNote := by
    unfold parse_command
    simp [h0, h1]
  refine ⟨hp, ?_, by decide, by decide, by decide, by decide, by decide,
    by decide, by decide, by decide⟩
  unfold process_command
  rw [hp]
  rfl

theorem C4_witness :
    parse_command "Process note." = Cmd.processNote ∧
    process_command [] "D" s5 "Process note." = (s5, some Spawn.processNote) ∧
    parse_command "scratch that" = Cmd.appendText "scratch that" ∧
    parse_command "clear buffer" = Cmd.appendText "clear buffer" ∧
    parse_command "clear all" = Cmd.appendText "clear all" ∧
    parse_command "paste buffer" = Cmd.appendText "paste buffer" ∧
    parse_command "undo paste" = Cmd.appendText "undo paste" ∧
    parse_command "show fields" = Cmd.appendText "show fields" ∧
    parse_command "undo" = Cmd.appendText "undo" ∧
    parse_command "redo" = Cmd.appendText "redo" :=
  C4_amended_only_process_note [] "D" s5 "Process note." (by decide) (by decide)

/-- C5: amended.  A SetField command whose placeholder does not occur in the
buffer leaves the text, active macro id, field confidence and status
unchanged and issues no report; the entire state change is the history
snapshot taken before the placeholder check (which, per save_to_history, may
push the pre-command text and clear the redo stack). -/
theorem C5_amended_snapshot_only
    (ms : List (String × String)) (today : String) (s : AppState) (f v : String)
    (h : containsS s.text (mkPlaceholder f) = false) :
    (apply_cmd ms today s (Cmd.setField f v)).1 = save_to_history s ∧
    (save_to_history s).text = s.text ∧
    (save_to_history s).activeMacroKey = s.activeMacroKey ∧
    (save_to_history s).fieldConfidence = s.fieldConfidence ∧
    (save_to_history s).status = s.status := by
  refine ⟨?_, save_text s, save_active s, save_conf s, save_status s⟩
  simp [apply_cmd, save_text, h]

theorem C5_witness :
    (apply_cmd [] "D" s5 (Cmd.setField "name" "Bob")).1 = save_to_history s5 ∧
    (save_to_history s5).text = s5.text ∧
    (save_to_history s5).activeMacroKey = s5.activeMacroKey ∧
    (save_to_history s5).fieldConfidence = s5.fieldConfidence ∧
    (save_to_history s5).status = s5.status :=
  C5_amended_snapshot_only [] "D" s5 "name" "Bob" (by decide)

/-- C8: amended.  Every utterance routed to the default AppendText branch is
appended with exactly one separating space, unconditionally: the branch never
checks whether the buffer is empty or already ends in whitespace. -/
theorem C8_amended_always_one_space
    (ms : List (String × String)) (today : String) (s : AppState) (u : String)
    (h : parse_command u = Cmd.appendText u) :
    (process_command ms today s u).1.text = s.text ++ " " ++ u := by
  unfold process_command
  rw [h]
  simp [apply_cmd, save_text]

theorem C8_witness :
    (process_command [] "D" s5 "hello").1.text = s5.text ++ " " ++ "hello" :=
  C8_amended_always_one_space [] "D" s5 "hello" (by decide)

/-- C9: confirmed.  One consumer tick is a no-op on the empty queue (the
queue-empty exception is caught, modelled by the total empty-list branch),
drains exactly the head item otherwise, and an error item updates only the
status surface: text, undo history, redo stack, active macro id, field
confidence and the info label are unchanged. -/
theorem C9_queue_tick (ms : List (String × String)) (today : String)
    (s : AppState) (q : List QItem) :
    process_queue ms today [] s = ([], s) ∧
    (∀ i r, q = i :: r → (process_queue ms today q s).1 = r) ∧
    (∀ msg r, q = QItem.error msg :: r →
      ((process_queue ms today q s).2.text = s.text ∧
       (process_queue ms today q s).2.history = s.history ∧
       (process_queue ms today q s).2.redoStack = s.redoStack ∧
       (process_queue ms today q s).2.activeMacroKey = s.activeMacroKey ∧
       (process_queue ms today q s).2.fieldConfidence = s.fieldConfidence ∧
       (process_queue ms today q s).2.info = s.info)) := by
  refine ⟨rfl, ?_, ?_⟩
  · rintro i r rfl
    cases i <;> rfl
  · rintro msg r rfl
    exact ⟨rfl, rfl, rfl, rfl, rfl, rfl⟩

theorem C9_witness :
    process_queue [] "D" [] s5 = ([], s5) ∧
    (process_queue [] "D" c9q s5).1 = [] ∧
    (process_queue [] "D" c9q s5).2.text = s5.text ∧
    (process_queue [] "D" c9q s5).2.history = s5.history ∧
    (process_queue [] "D" c9q s5).2.redoStack = s5.redoStack ∧
    (process_queue [] "D" c9q s5).2.activeMacroKey = s5.activeMacroKey ∧
    (process_queue [] "D" c9q s5).2.fieldConfidence = s5.fieldConfidence ∧
    (process_queue [] "D" c9q s5).2.info = s5.info := by
  have h := C9_queue_tick [] "D" s5 c9q
  have h3 := h.2.2 "ERROR: boom" [] rfl
  exact ⟨h.1, h.2.1 (QItem.error "ERROR: boom") [] rfl,
    h3.1, h3.2.1, h3.2.2.1, h3.2.2.2.1, h3.2.2.2.2.1, h3.2.2.2.2.2⟩

/- Lemmas about the confidence dictionary and the merge fold. -/

theorem dictSet_keys (m : List (String × Rat)) (k : String) (v : Rat) (x : String)
    (hx : x ∈ (dictSet m k v).map Prod.fst) : x ∈ m.map Prod.fst ∨ x = k := by
  unfold dictSet at hx
  split at hx
  · rcases List.mem_map.mp hx with ⟨q, hq, rfl⟩
    rcases List.mem_map.mp hq with ⟨p, hp, rfl⟩
    by_cases hpk : p.1 = k
    · right; simp [hpk]
    · left
      simp only [hpk, if_false]
      exact List.mem_map_of_mem Prod.fst hp
  · rw [List.map_append] at hx
    rcases List.mem_append.mp hx with h | h
    · exact Or.inl h
    · right; simpa using h

theorem mergeStep_keys (a : String × List (String × Rat)) (kv : String × FieldData)
    (x : String) (hx : x ∈ (mergeStep a kv).2.map Prod.fst) :
    x ∈ a.2.map Prod.fst ∨ x = kv.1 := by
  unfold mergeStep at hx
  split at hx
  · exact dictSet_keys a.2 kv.1 kv.2.confidence x hx
  · exact Or.inl hx

theorem foldl_merge_keys (l : List (String × FieldData)) :
    ∀ (a : String × List (String × Rat)) (x : String),
      x ∈ (l.foldl mergeStep a).2.map Prod.fst →
      x ∈ a.2.map Prod.fst ∨ x ∈ l.map Prod.fst := by
  induction l with
  | nil => intro a x hx; exact Or.inl hx
  | cons kv tl ih =>
    intro a x hx
    rcases ih (mergeStep a kv) x hx with h | h
    · rcases mergeStep_keys a kv x h with h2 | h2
      · exact Or.inl h2
      · right; simp [h2]
    · right; simp [h]

/-- C6: amended.  Inserting a known macro and clearing empty the confidence
map (so the invariant holds vacuously there), but the note-processing merge
records one confidence key per truthy reply field without checking the
template: its keys are only guaranteed to be reply keys, and the spec
invariant is preserved exactly when every reply field key occurs as a
placeholder of the stored template. -/
theorem C6_amended_confidence_keys
    (ms : List (String × String)) (today : String) (s : AppState)
    (key tpl t : String) (fields : List (String × FieldData))
    (hK : ms.lookup key = some tpl) :
    (apply_cmd ms today s (Cmd.insertMacroCmd key)).1.fieldConfidence = [] ∧
    (clear_all s).fieldConfidence = [] ∧
    (∀ x ∈ (merge_fields t today fields).2.map Prod.fst, x ∈ fields.map Prod.fst) ∧
    ((∀ y ∈ fields.map Prod.fst, y ∈ findPlaceholders t) →
      ∀ x ∈ (merge_fields t today fields).2.map Prod.fst, x ∈ findPlaceholders t) := by
  have hkeys : ∀ x ∈ (merge_fields t today fields).2.map Prod.fst,
      x ∈ fields.map Prod.fst := by
    intro x hx
    unfold merge_fields at hx
    rcases foldl_merge_keys fields _ x hx with h | h
    · simp at h
    · exact h
  refine ⟨?_, rfl, hkeys, ?_⟩
  · simp [apply_cmd, hK]
  · intro hsub x hx
    exact hsub x (hkeys x hx)

theorem C6_witness :
    (apply_cmd c6M "D" initState (Cmd.insertMacroCmd "m2")).1.fieldConfidence = [] ∧
    (clear_all initState).fieldConfidence = [] ∧
    (∀ x ∈ (merge_fields "Hello \x7bname\x7d" "D" c6data.fields).2.map Prod.fst,
      x ∈ c6data.fields.map Prod.fst) ∧
    ((∀ y ∈ c6data.fields.map Prod.fst, y ∈ findPlaceholders "Hello \x7bname\x7d") →
      ∀ x ∈ (merge_fields "Hello \x7bname\x7d" "D" c6data.fields).2.map Prod.fst,
        x ∈ findPlaceholders "Hello \x7bname\x7d") :=
  C6_amended_confidence_keys c6M "D" initState "m2" "Hello \x7bname\x7d"
    "Hello \x7bname\x7d" c6data.fields (by decide)

/- Lemmas about history pushes and command steps. -/

theorem histPush_head (h : List String) (x : String) :
    (histPush h x).head? = some x := rfl

theorem histPush_count_le (h : List String) (x t : String) :
    (histPush h x).count t ≤ h.count t + 1 := by
  unfold histPush
  have h1 := (List.take_sublist 49 h).count_le t
  have h2 : (x :: h.take 49).count t ≤ (h.take 49).count t + 1 := by
    rw [List.count_cons]
    split <;> omega
  omega

theorem histPush_count_ne (h : List String) (x t : String) (hne : x ≠ t) :
    (histPush h x).count t ≤ h.count t := by
  unfold histPush
  have h1 := (List.take_sublist 49 h).count_le t
  have h2 : (x :: h.take 49).count t = (h.take 49).count t := by
    have hxt : (x == t) = false := beq_eq_false_iff_ne.mpr hne
    rw [List.count_cons, hxt]
    simp
  omega

theorem step_history (ms : List (String × String)) (today : String)
    (s : AppState) (u : String) :
    (process_command ms today s u).1.history = s.history ∨
      (¬(s.history.head? = some s.text) ∧
        (process_command ms today s u).1.history = histPush s.history s.text) := by
  unfold process_command
  cases hc : parse_command u with
  | errorPassthrough msg => left; rfl
  | processNote => left; rfl
  | insertMacroCmd key =>
    have hh : (apply_cmd ms today s (Cmd.insertMacroCmd key)).1.history =
        (save_to_history s).history := by
      simp only [apply_cmd]
      cases ms.lookup key <;> rfl
    rcases save_history_cases s with h | ⟨h1, h2⟩
    · left; rw [hh, h]
    · right; exact ⟨h1, by rw [hh, h2]⟩
  | setField f v =>
    have hh : (apply_cmd ms today s (Cmd.setField f v)).1.history =
        (save_to_history s).history := by
      simp only [apply_cmd]
      split <;> rfl
    rcases save_history_cases s with h | ⟨h1, h2⟩
    · left; rw [hh, h]
    · right; exact ⟨h1, by rw [hh, h2]⟩
  | appendText t =>
    rcases save_history_cases s with h | ⟨h1, h2⟩
    · left; simpa [apply_cmd] using h
    · right; exact ⟨h1, by simpa [apply_cmd] using h2⟩

/-- C7: confirmed.  Pushing a snapshot equal to the newest history entry is a
no-op of the whole state (no entry, no redo clear), and any two consecutive
commands whose resulting texts coincide contribute at most one history entry
holding that text, because the second snapshot is suppressed whenever the
newest entry already equals it. -/
theorem C7_history_dedup (ms : List (String × String)) (today : String)
    (s : AppState) (u1 u2 : String) :
    (s.history.head? = some s.text → save_to_history s = s) ∧
    ((process_command ms today s u1).1.text =
        (process_command ms today (process_command ms today s u1).1 u2).1.text →
      (process_command ms today (process_command ms today s u1).1 u2).1.history.count
          (process_command ms today (process_command ms today s u1).1 u2).1.text ≤
        s.history.count
          ((process_command ms today (process_command ms today s u1).1 u2).1.text) + 1) := by
  constructor
  · intro h; simp [save_to_history, h]
  · have H1 := step_history ms today s u1
    set s1 := (process_command ms today s u1).1 with hs1
    have H2 := step_history ms today s1 u2
    set s2 := (process_command ms today s1 u2).1 with hs2
    intro hT
    rcases H2 with h2 | ⟨h2a, h2b⟩
    · rw [h2]
      rcases H1 with h1 | ⟨h1a, h1b⟩
      · rw [h1]; exact Nat.le_succ _
      · rw [h1b]; exact histPush_count_le s.history s.text s2.text
    · rw [h2b, ← hT]
      rcases H1 with h1 | ⟨h1a, h1b⟩
      · rw [h1]
        exact histPush_count_le s.history s1.text s1.text
      · have hne : s.text ≠ s1.text := by
          intro he
          apply h2a
          rw [h1b, ← he]
          exact histPush_head s.history s.text
        calc (histPush s1.history s1.text).count s1.text
            ≤ s1.history.count s1.text + 1 := histPush_count_le s1.history s1.text s1.text
          _ ≤ s.history.count s1.text + 1 := by
              rw [h1b]
              exact Nat.add_le_add_right (histPush_count_ne s.history s.text s1.text hne) 1

theorem C7_witness :
    save_to_history w7 = w7 ∧
    (process_command [] "D" (process_command [] "D" w7 "set a to b").1 "set c to d").1.history.count
        (process_command [] "D" (process_command [] "D" w7 "set a to b").1 "set c to d").1.text ≤
      w7.history.count
        ((process_command [] "D" (process_command [] "D" w7 "set a to b").1 "set c to d").1.text) + 1 := by
  have h := C7_history_dedup [] "D" w7 "set a to b" "set c to d"
  exact ⟨h.1 (by decide), h.2 (by decide)⟩

/- Lemmas about skipped merge fields and confidence lookups. -/

theorem mergeStep_skip (a : String × List (String × Rat)) (kv : String × FieldData)
    (h : kv.2.value = "") : mergeStep a kv = a := by
  unfold mergeStep; simp [h]

theorem merge_fields_skip (t today : String) (l1 l2 : List (String × FieldData))
    (k : String) (fd : FieldData) (h : fd.value = "") :
    merge_fields t today (l1 ++ (k, fd) :: l2) = merge_fields t today (l1 ++ l2) := by
  unfold merge_fields
  rw [List.foldl_append, List.foldl_append, List.foldl_cons,
    mergeStep_skip _ (k, fd) h]

theorem lookup_mapReplace (m : List (String × Rat)) (j : String) (v : Rat)
    (k : String) (h : k ≠ j) :
    (m.map (fun p => if p.1 = j then (j, v) else p)).lookup k = m.lookup k := by
  induction m with
  | nil => rfl
  | cons p tl ih =>
    obtain ⟨pk, pv⟩ := p
    rw [List.map_cons]
    by_cases hp : pk = j
    · subst hp
      rw [if_pos (show (pk, pv).1 = pk from rfl)]
      simp [List.lookup, beq_eq_false_iff_ne.mpr h, ih]
    · rw [if_neg (show ¬((pk, pv).1 = j) from hp)]
      by_cases hk : k = pk
      · simp [List.lookup, hk]
      · simp [List.lookup, beq_eq_false_iff_ne.mpr hk, ih]

theorem lookup_append_single (m : List (String × Rat)) (j k : String) (v : Rat)
    (h : k ≠ j) : (m ++ [(j, v)]).lookup k = m.lookup k := by
  induction m with
  | nil => simp [List.lookup, beq_eq_false_iff_ne.mpr h]
  | cons p tl ih =>
    obtain ⟨pk, pv⟩ := p
    by_cases hk : k = pk
    · simp [List.lookup, hk]
    · simp [List.lookup, beq_eq_false_iff_ne.mpr hk, ih]

theorem dictSet_lookup_ne (m : List (String × Rat)) (j k : String) (v : Rat)
    (h : k ≠ j) : (dictSet m j v).lookup k = m.lookup k := by
  unfold dictSet
  split
  · exact lookup_mapReplace m j v k h
  · exact lookup_append_single m j k v h

theorem foldl_merge_lookup (l : List (String × FieldData)) (k : String)
    (hk : k ∉ l.map Prod.fst) :
    ∀ a : String × List (String × Rat),
      ((l.foldl mergeStep a).2).lookup k = a.2.lookup k := by
  induction l with
  | nil => intro a; rfl
  | cons kv tl ih =>
    intro a
    have hk1 : k ≠ kv.1 := fun he => hk (by simp [he])
    have hk2 : k ∉ tl.map Prod.fst := fun he => hk (by simp [he])
    rw [List.foldl_cons, ih hk2]
    unfold mergeStep
    split
    · exact dictSet_lookup_ne a.2 kv.1 k kv.2.confidence hk1
    · rfl

/-- C10: confirmed.  A reply field whose decoded value is empty (a bare empty
string, or an object whose value member is empty or missing) is skipped by
the merge: the resulting state is the same as if that field were absent from
the reply (so its placeholder is never substituted), and no confidence entry
is recorded under its key. -/
theorem C10_empty_fields_skipped
    (ms : List (String × String)) (today t : String) (s : AppState)
    (l1 l2 : List (String × FieldData)) (k : String) (fd : FieldData)
    (pt : Rat) (lc : Nat)
    (hv : fd.value = "") (hk : k ∉ (l1 ++ l2).map Prod.fst) :
    apply_gemini_result ms today s ⟨l1 ++ (k, fd) :: l2, pt, lc⟩ =
      apply_gemini_result ms today s ⟨l1 ++ l2, pt, lc⟩ ∧
    ((merge_fields t today (l1 ++ (k, fd) :: l2)).2).lookup k = none := by
  constructor
  · unfold apply_gemini_result
    cases s.activeMacroKey with
    | none => rfl
    | some key =>
      dsimp only
      by_cases hke : key = ""
      · simp [hke]
      · simp only [if_neg hke]
        cases ms.lookup key with
        | none => rfl
        | some tpl => simp [merge_fields_skip tpl today l1 l2 k fd hv]
  · rw [merge_fields_skip t today l1 l2 k fd hv]
    unfold merge_fields
    rw [foldl_merge_lookup (l1 ++ l2) k hk]
    rfl

theorem C10_witness :
    apply_gemini_result tMacros "D" c10s ⟨c10fields1, 0, 0⟩ =
      apply_gemini_result tMacros "D" c10s ⟨c10fields2, 0, 0⟩ ∧
    ((merge_fields "T \x7bextra\x7d" "D" c10fields1).2).lookup "extra" = none :=
  C10_empty_fields_skipped tMacros "D" "T \x7bextra\x7d" c10s
    [("name", FieldData.plain "Jane")] [] "extra" (FieldData.scored none none)
    0 0 rfl (by decide)
